import Mathlib

/-!
Verification of the mass-balance reconciliation core of the
`mass-composition` repository (`elphick/mass_composition/balance.py` and the
topology-query methods of `elphick/mass_composition/mc_network.py`).

Numeric model: numpy floating-point values are embedded as `NpVal`, an exact
rational (`ℚ`) extended with `nan`, `inf` and `neginf`.  The arithmetic on
`NpVal` follows IEEE-754 special-value propagation (which numpy implements):
division of a nonzero finite value by zero gives a signed infinity, `0/0`
gives `nan`, `nan` propagates through every operation, `inf - inf = nan`,
and so on.  Rounding and overflow of ordinary finite arithmetic are not
modelled (finite values stay exact rationals); the special values are what
the claims under study are about.  `np.nan_to_num` is modelled by
`nanToNumQ`: `nan ↦ 0`, `inf ↦ maxFloat`, `neginf ↦ -maxFloat`, where
`maxFloat = 2^1024 - 2^971` is the exact value of the largest IEEE double
(`1.7976931348623157e308`), the number numpy substitutes for `inf`.
-/

namespace MassComp

/-- A numpy scalar: an exact finite rational, or one of the IEEE special
values `nan`, `+inf`, `-inf`. -/
inductive NpVal where
  | fin (q : ℚ)
  | nan
  | inf
  | neginf
deriving DecidableEq, Repr


/-- The largest finite IEEE-754 double, `1.7976931348623157e308`, as an exact
rational: `2^1024 - 2^971`.  `np.nan_to_num` maps `inf` to this value. -/
def maxFloat : ℚ := 2 ^ 1024 - 2 ^ 971


/-- IEEE subtraction on numpy scalars. -/
def npSub : NpVal → NpVal → NpVal
  | .nan, _ => .nan
  | _, .nan => .nan
  | .inf, .inf => .nan
  | .inf, _ => .inf
  | .neginf, .neginf => .nan
  | .neginf, _ => .neginf
  | .fin _, .inf => .neginf
  | .fin _, .neginf => .inf
  | .fin a, .fin b => .fin (a - b)


/-- IEEE addition on numpy scalars. -/
def npAdd : NpVal → NpVal → NpVal
  | .nan, _ => .nan
  | _, .nan => .nan
  | .inf, .neginf => .nan
  | .neginf, .inf => .nan
  | .inf, _ => .inf
  | _, .inf => .inf
  | .neginf, _ => .neginf
  | _, .neginf => .neginf
  | .fin a, .fin b => .fin (a + b)


/-- IEEE multiplication on numpy scalars (`inf * 0 = nan`, signs respected). -/
def npMul : NpVal → NpVal → NpVal
  | .nan, _ => .nan
  | _, .nan => .nan
  | .inf, .inf => .inf
  | .inf, .neginf => .neginf
  | .neginf, .inf => .neginf
  | .neginf, .neginf => .inf
  | .inf, .fin b => if b = 0 then .nan else if 0 < b then .inf else .neginf
  | .fin a, .inf => if a = 0 then .nan else if 0 < a then .inf else .neginf
  | .neginf, .fin b => if b = 0 then .nan else if 0 < b then .neginf else .inf
  | .fin a, .neginf => if a = 0 then .nan else if 0 < a then .neginf else .inf
  | .fin a, .fin b => .fin (a * b)


/-- IEEE division on numpy scalars: `q/0` is `±inf` for `q ≠ 0` and `nan`
for `q = 0` (numpy emits a warning but produces exactly these values);
`inf/inf = nan`; a finite value divided by an infinity is `0`. -/
def npDiv : NpVal → NpVal → NpVal
  | .nan, _ => .nan
  | _, .nan => .nan
  | .inf, .inf => .nan
  | .inf, .neginf => .nan
  | .neginf, .inf => .nan
  | .neginf, .neginf => .nan
  | .inf, .fin b => if 0 ≤ b then .inf else .neginf
  | .neginf, .fin b => if 0 ≤ b then .neginf else .inf
  | .fin _, .inf => .fin 0
  | .fin _, .neginf => .fin 0
  | .fin a, .fin b =>
      if b = 0 then (if a = 0 then .nan else if 0 < a then .inf else .neginf)
      else .fin (a / b)


/-- Squaring (`** 2` in numpy), as self-multiplication. -/
def npSq (a : NpVal) : NpVal := npMul a a


/-- `np.nan_to_num` on a scalar: `nan ↦ 0`, `inf ↦ maxFloat`,
`-inf ↦ -maxFloat`, finite values unchanged.  The result is always finite,
so it is returned directly as a rational. -/
def nanToNumQ : NpVal → ℚ
  | .nan => 0
  | .inf => maxFloat
  | .neginf => -maxFloat
  | .fin q => q


/-- One cell of the fit term of `cost_fn` (balance.py line 72):
`np.nan_to_num(((xm - x) / (x * sd)) ** 2)` for a single stream/component
cell. -/
def fitCell (x xm sd : NpVal) : ℚ :=
  nanToNumQ (npSq (npDiv (npSub xm x) (npMul x sd)))


/-- Fuel-driven worker for `toRows`; the fuel is an upper bound on the
input length, so it never runs out on the actual calls. -/
def toRowsAux : ℕ → ℕ → List α → List (List α)
  | 0, _, _ => []
  | _ + 1, _, [] => []
  | fuel + 1, n, a :: l =>
      if n = 0 then [] else (a :: l).take n :: toRowsAux fuel n ((a :: l).drop n)


/-- `reshape`: split a flat vector into consecutive rows of length `n`
(numpy `x.reshape(m, n)` row-major order). -/
def toRows (n : ℕ) (l : List α) : List (List α) :=
  toRowsAux l.length n l


/-- numpy `array.sum(axis=0)`: elementwise sum of a list of rows, starting
from a zero row of length `n` (the behaviour of summing a selection of rows
of an `m×n` array, including the empty selection). -/
def colSum (n : ℕ) (rows : List (List NpVal)) : List NpVal :=
  rows.foldl (fun acc r => List.zipWith npAdd acc r) (List.replicate n (NpVal.fin 0))


/-- The per-record cost function `cost_fn` of
`MCBalance._create_cost_functions` (balance.py lines 57–86), transliterated:

* `cost_mass_grades = np.nan_to_num(((xm.ravel() - x) / (x * sd.ravel())) ** 2)`
  — elementwise over the flattened measured table, the variable vector and
  the flattened sd table;
* `x_2d = x.reshape(xm.shape)`;
* `x_mass = np.hstack([x_2d[:, 0].reshape(-1, 1),
  x_2d[:, 1:] * x_2d[:, 0].reshape(-1, 1) / 100.0])` — first column (dry
  mass) kept, remaining columns (grades) multiplied by the dry-mass column
  and divided by 100;
* for each `(ins, outs)` in `node_relationships`:
  `np.nan_to_num((x_mass[ins, :].sum(axis=0) - x_mass[outs, :].sum(axis=0)) ** 2).sum()`;
* total: `cost_mass_grades.sum() + sum(cost_component_balance)`.

Tables are lists of rows (streams) of cells (components); `xm.shape` is
recovered from the row structure of `xm`.  Where numpy would raise on a
shape mismatch or an out-of-range stream index, the embedding totalizes
harmlessly (zips truncate at the shorter operand, `getD` falls back to a
zero row); every claim is about shape-consistent inputs, where the two
agree. -/
def cost_fn (x : List NpVal) (xm sd : List (List NpVal))
    (node_relationships : List (List ℕ × List ℕ)) : ℚ :=
  let cost_mass_grades : List ℚ :=
    List.zipWith (fun xmi p => fitCell p.1 xmi p.2) xm.flatten (List.zip x sd.flatten)
  let ncols := (xm.headD []).length
  let x_2d := toRows ncols x
  let x_mass := List.zipWith
      (fun m rest => m :: rest.map (fun g => npDiv (npMul g m) (NpVal.fin 100)))
      (x_2d.map (fun r => r.headD NpVal.nan)) (x_2d.map List.tail)
  let cost_component_balance : List ℚ :=
    node_relationships.map (fun io =>
      let mass_in_sum := colSum ncols (io.1.map (fun i => x_mass.getD i (List.replicate ncols (NpVal.fin 0))))
      let mass_out_sum := colSum ncols (io.2.map (fun i => x_mass.getD i (List.replicate ncols (NpVal.fin 0))))
      ((List.zipWith npSub mass_in_sum mass_out_sum).map (fun d => nanToNumQ (npSq d))).sum)
  cost_mass_grades.sum + cost_component_balance.sum


/-- `MCBalance._create_cost_functions` (balance.py lines 88–96): one cost
closure per record, each a partial application of `cost_fn` capturing that
record's measured table `xm`, the shared `sd` table and the balance-node
`(inputs, outputs)` index pairs.  No validation of `sd` is performed. -/
def create_cost_functions (records : List String)
    (xmOf : String → List (List NpVal)) (sd : List (List NpVal))
    (node_ins_outs : List (List ℕ × List ℕ)) :
    List (String × (List NpVal → ℚ)) :=
  records.map (fun k => (k, fun x => cost_fn x (xmOf k) sd node_ins_outs))


/-- The fit term as the spec words it: for every stream/component cell,
`((xm - x) / (x * sd))^2`, guard-mapped, summed over all cells. -/
def fit_term_spec (x : List NpVal) (xm sd : List (List NpVal)) : ℚ :=
  (List.zipWith (fun xmi p => nanToNumQ (npSq (npDiv (npSub xmi p.1) (npMul p.1 p.2))))
    xm.flatten (List.zip x sd.flatten)).sum


/-- Component-mass conversion as the spec words it: column 0 is dry mass and
stays unchanged; every remaining column is a grade (percent of dry mass) and
becomes `grade * mass_dry / 100`. -/
def component_mass_spec : List (List NpVal) → List (List NpVal) :=
  List.map (fun row =>
    match row with
    | [] => []
    | m :: grades => m :: grades.map (fun g => npDiv (npMul g m) (NpVal.fin 100)))


/-- Balance term of one `BALANCE` node as the spec words it: sum the
component-mass rows over the node's inputs and separately over its outputs,
take the elementwise squared difference (guard-mapped), and sum it. -/
def balance_term_spec (ncols : ℕ) (x_mass : List (List NpVal))
    (io : List ℕ × List ℕ) : ℚ :=
  let mass_in := colSum ncols (io.1.map (fun i => x_mass.getD i (List.replicate ncols (NpVal.fin 0))))
  let mass_out := colSum ncols (io.2.map (fun i => x_mass.getD i (List.replicate ncols (NpVal.fin 0))))
  ((List.zipWith npSub mass_in mass_out).map (fun d => nanToNumQ (npSq d))).sum


/-- The flow network as `MCNetwork` holds it after
`nx.convert_node_labels_to_integers`: integer-labelled nodes in iteration
order, and directed edges `(u, v, name)` where `name` identifies the
`MassComposition` stream stored on the edge. -/
structure Network where
  nodes : List ℕ
  edges : List (ℕ × ℕ × String)
deriving DecidableEq, Repr


/-- networkx `DiGraph.degree` of one node: in-degree plus out-degree
(a self-loop counts twice). -/
def nxDegree (net : Network) (n : ℕ) : ℕ :=
  (net.edges.filter (fun e => decide (e.1 = n))).length +
    (net.edges.filter (fun e => decide (e.2.1 = n))).length


/-- `MCNetwork.get_edge_names` (mc_network.py lines 156–166): the stream
names in edge-iteration order. -/
def get_edge_names (net : Network) : List String :=
  net.edges.map (fun e => e.2.2)


/-- `degrees = [d for n, d in self.degree()]` (mc_network.py line 175):
the node degrees as a positional list in node-iteration order.  The code
then indexes this list by the node label itself. -/
def degreesList (net : Network) : List ℕ :=
  net.nodes.map (nxDegree net)


/-- `MCNetwork.get_input_edges` (mc_network.py lines 168–177): the edges
whose origin node, looked up positionally in the degrees list, has total
degree 1. -/
def get_input_edges (net : Network) : List (ℕ × ℕ × String) :=
  net.edges.filter (fun e => decide ((degreesList net).getD e.1 0 = 1))


/-- `MCNetwork.get_output_edges` (mc_network.py lines 179–188): the edges
whose destination node, looked up positionally in the degrees list, has
total degree 1. -/
def get_output_edges (net : Network) : List (ℕ × ℕ × String) :=
  net.edges.filter (fun e => decide ((degreesList net).getD e.2.1 0 = 1))


/-- The `for strm in [...]: df_sd.loc[strm, :] = tight_sd` loop of
`create_balance_config`: overwrite every component column of the rows
named in `names` with the constant `v`. -/
def set_rows (tbl : List (String × List ℚ)) (names : List String) (v : ℚ) :
    List (String × List ℚ) :=
  names.foldl
    (fun acc strm =>
      acc.map (fun row => if row.1 = strm then (row.1, row.2.map (fun _ => v)) else row))
    tbl


/-- `MCBalance.create_balance_config` (balance.py lines 133–160): start
from the report table (one row per stream name, wet mass dropped), set
every cell to 1.0, then tighten the rows of the input (resp. output)
streams to `0.001` if locked else `0.1`; any other truthy policy string
raises `KeyError`.  Python's `if best_measurements:` is falsy for both
`None` and the empty string, so both leave the table untouched.  Exact
decimals stand in for the float literals, and the `KeyError` message is
paraphrased without quote characters. -/
def create_balance_config (net : Network) (components : List String)
    (best_measurements : Option String) (best_locked : Bool) :
    Except String (List (String × List ℚ)) :=
  let df_sd := (get_edge_names net).map (fun nm => (nm, components.map (fun _ => (1 : ℚ))))
  match best_measurements with
  | none => .ok df_sd
  | some bm =>
      if bm = "" then .ok df_sd
      else
        let tight_sd : ℚ := if best_locked then 1/1000 else 1/10
        if bm = "input" then
          .ok (set_rows df_sd ((get_input_edges net).map (fun e => e.2.2)) tight_sd)
        else if bm = "output" then
          .ok (set_rows df_sd ((get_output_edges net).map (fun e => e.2.2)) tight_sd)
        else .error "best_measurements argument must be input|output"


/-- A small concrete flowsheet: one feed stream into node 1, two product
streams out of it (`0 →feed→ 1`, `1 →lump→ 2`, `1 →fines→ 3`). -/
def exNet : Network :=
  ⟨[0, 1, 2, 3], [(0, 1, "feed"), (1, 2, "lump"), (1, 3, "fines")]⟩


/-- The result scipy's `minimize` returns, as `optimise` consumes it: the
solution vector `res.x` and the convergence flag `res.success`. -/
structure MinimizeResult where
  x : List ℚ
  success : Bool
deriving DecidableEq, Repr


/-- The `(record key, stream name)` row index of `MCNetwork.to_dataframe`
(mc_network.py lines 505–521): one chunk per edge, each chunk holding all
of that edge's records, so the composite index is edge-major. -/
def to_dataframe_index (edges records : List String) : List (String × String) :=
  edges.bind (fun s => records.map (fun r => (r, s)))


/-- `df_res.loc[df_measured.index, :]` (balance.py line 189): re-select the
rows of `chunks` in the order of `index`; a label occurring several times
in `chunks` yields all of its matching rows, in `chunks` order, at its
position in `index` (pandas duplicate-label semantics). -/
def loc_reindex (chunks : List ((String × String) × List ℚ))
    (index : List (String × String)) : List ((String × String) × List ℚ) :=
  index.bind (fun idx => chunks.filter (fun row => decide (row.1 = idx)))


/-- `MCBalance.optimise` (balance.py lines 164–190), abstracted over the
external scipy minimizer: for each record key, in the iteration order of
the cost-function dictionary (`procOrder`, kept abstract), take the
minimizer's result, reshape `res.x` into one row per stream of `ncols`
components labelled `(record, stream)`, concatenate the per-record chunks,
and re-select the rows to match the measured table's `(record, stream)`
index exactly.  Only `res.x` is consulted; `res.success` is not. -/
def optimise_model (edges records procOrder : List String) (ncols : ℕ)
    (minim : String → MinimizeResult) : List ((String × String) × List ℚ) :=
  let chunks := procOrder.bind (fun k =>
    List.zipWith (fun s row => ((k, s), row)) edges (toRows ncols (minim k).x))
  loc_reindex chunks (to_dataframe_index edges records)


/-- The state visible to `MCBalance.optimise`: the network's per-stream
measured data (per edge, in edge order: the stream name and its
`(record key, measured row)` pairs), the uncertainty table `self.sd`, and
the balance-node `(inputs, outputs)` stream-index pairs prepared from the
topology. -/
structure MCBalanceState where
  stream_data : List (String × List (String × List ℚ))
  sd : List (List NpVal)
  node_ins_outs : List (List ℕ × List ℕ)


/-- The record index of the first input edge's data
(`self.mcn.get_input_edges()[0].data.to_dataframe().index`, balance.py
line 92); by the network invariant every stream shares it.  Reading it does
not change the state. -/
def records_of (s : MCBalanceState) : List String :=
  (s.stream_data.headD ("", [])).2.map (fun rec => rec.1)


/-- `MCNetwork.to_dataframe` as a state-threaded step: build the edge-major
tidy table keyed by `(record, stream)`; the network state is only read,
and is returned unchanged. -/
def to_dataframe_st (s : MCBalanceState) :
    MCBalanceState × List ((String × String) × List ℚ) :=
  (s, s.stream_data.bind (fun e => e.2.map (fun rec => ((rec.1, e.1), rec.2))))


/-- `df_network.loc[k, :]`: the per-stream rows of record `k`, in table
order. -/
def record_rows (df : List ((String × String) × List ℚ)) (k : String) :
    List ((String × String) × List ℚ) :=
  df.filter (fun row => decide (row.1.1 = k))


/-- `MCBalance._create_cost_functions` as a state-threaded step: one
closure per record key, capturing that record's measured table, the shared
`sd` table and the node relationships; the state is only read, and is
returned unchanged. -/
def create_cost_functions_st (s : MCBalanceState) :
    MCBalanceState × List (String × (List NpVal → ℚ)) :=
  let df := (to_dataframe_st s).2
  (s, (records_of s).map (fun k =>
    (k, fun x => cost_fn x
      ((record_rows df k).map (fun row => row.2.map NpVal.fin))
      s.sd s.node_ins_outs)))


/-- `MCBalance.optimise` (balance.py lines 164–190) with the state threaded
through every step and scipy's `minimize` abstracted as an oracle taking
the cost closure and the flattened starting vector `x0` (the measured
values).  Every step of the body only reads the state: building the cost
closures, exporting the measured table, minimizing per record, reshaping
`res.x`, concatenating and re-indexing all construct fresh tables. -/
def optimise_st (s0 : MCBalanceState)
    (minimize : (List NpVal → ℚ) → List ℚ → MinimizeResult) :
    MCBalanceState × List ((String × String) × List ℚ) :=
  let step1 := create_cost_functions_st s0
  let s1 := step1.1
  let d_cost_fns := step1.2
  let step2 := to_dataframe_st s1
  let s2 := step2.1
  let df_measured := step2.2
  let ncols := (df_measured.headD (("", ""), [])).2.length
  let chunks := d_cost_fns.bind (fun kf =>
    let rows_k := record_rows df_measured kf.1
    let x0 := (rows_k.map (fun row => row.2)).flatten
    let res := minimize kf.2 x0
    List.zipWith (fun row resRow => ((kf.1, row.1.2), resRow)) rows_k (toRows ncols res.x))
  (s2, loc_reindex chunks (df_measured.map Prod.fst))


theorem toRowsAux_fuel (n : ℕ) : ∀ (fuel fuel' : ℕ) (l : List α),
    l.length ≤ fuel → l.length ≤ fuel' → toRowsAux fuel n l = toRowsAux fuel' n l := by
  intro fuel
  induction fuel with
  | zero =>
      intro fuel' l h h'
      cases l with
      | nil => cases fuel' <;> rfl
      | cons a t => simp at h
  | succ f ih =>
      intro fuel' l h h'
      cases l with
      | nil => cases fuel' <;> rfl
      | cons a t =>
          cases fuel' with
          | zero => simp at h'
          | succ f' =>
              simp only [toRowsAux]
              by_cases hn : n = 0
              · simp [hn]
              · simp only [hn, if_false]
                have ht : t.length + 1 ≤ f + 1 := by simpa using h
                have ht' : t.length + 1 ≤ f' + 1 := by simpa using h'
                congr 1
                apply ih
                · simp only [List.length_drop, List.length_cons]; omega
                · simp only [List.length_drop, List.length_cons]; omega


theorem toRows_nil (n : ℕ) : toRows n ([] : List α) = [] := by
  cases n <;> rfl


theorem toRows_zero (l : List α) : toRows 0 l = [] := by
  cases l <;> rfl


/-- Unfolding equation for `toRows` on a nonempty list with positive row
length. -/
theorem toRows_cons (n : ℕ) (hn : n ≠ 0) (a : α) (t : List α) :
    toRows n (a :: t) = (a :: t).take n :: toRows n ((a :: t).drop n) := by
  simp only [toRows, List.length_cons, toRowsAux, hn, if_false]
  congr 1
  apply toRowsAux_fuel
  · simp only [List.length_drop, List.length_cons]; omega
  · exact le_rfl


/-- Every row produced by `toRows` with positive row length is nonempty. -/
theorem toRows_mem_ne_nil (n : ℕ) (l : List α) :
    ∀ r ∈ toRows n l, r ≠ [] := by
  have key : ∀ (fuel : ℕ) (l : List α), ∀ r ∈ toRowsAux fuel n l, r ≠ [] := by
    intro fuel
    induction fuel with
    | zero => intro l r hr; simp [toRowsAux] at hr
    | succ f ih =>
        intro l r hr
        cases l with
        | nil => simp [toRowsAux] at hr
        | cons a t =>
            by_cases hn : n = 0
            · simp [toRowsAux, hn] at hr
            · simp only [toRowsAux, hn, if_false] at hr
              rcases List.mem_cons.mp hr with h | h
              · subst h
                cases n with
                | zero => exact absurd rfl hn
                | succ m => simp [List.take]
              · exact ih _ r h
  exact key l.length l


theorem maxFloat_pos : 0 < maxFloat := by norm_num [maxFloat]


theorem nanToNumQ_npSq_nonneg (a : NpVal) : 0 ≤ nanToNumQ (npSq a) := by
  cases a with
  | fin q => simpa [npSq, npMul, nanToNumQ] using mul_self_nonneg q
  | nan => simp [npSq, npMul, nanToNumQ]
  | inf => simpa [npSq, npMul, nanToNumQ] using maxFloat_pos.le
  | neginf => simpa [npSq, npMul, nanToNumQ] using maxFloat_pos.le


theorem fitCell_nonneg (x xm sd : NpVal) : 0 ≤ fitCell x xm sd :=
  nanToNumQ_npSq_nonneg _


/-- A fit cell evaluated at the measured value itself is exactly `0`,
whatever the weight: the residual numerator is `0` (or `nan` for non-finite
measurements), so the guarded cell is `0`. -/
theorem fitCell_self (a s : NpVal) : fitCell a a s = 0 := by
  cases a with
  | fin q =>
      cases s with
      | fin r =>
          simp only [fitCell, npSub, sub_self, npMul]
          by_cases h : q * r = 0
          · simp [npDiv, h, npSq, npMul, nanToNumQ]
          · simp [npDiv, h, npSq, npMul, nanToNumQ]
      | nan => simp [fitCell, npSub, npMul, npDiv, npSq, nanToNumQ]
      | inf =>
          simp only [fitCell, npSub, sub_self, npMul]
          by_cases h : q = 0
          · simp [npDiv, h, npSq, npMul, nanToNumQ]
          · by_cases h2 : 0 < q <;>
              simp [npDiv, h, h2, npSq, npMul, nanToNumQ]
      | neginf =>
          simp only [fitCell, npSub, sub_self, npMul]
          by_cases h : q = 0
          · simp [npDiv, h, npSq, npMul, nanToNumQ]
          · by_cases h2 : 0 < q <;>
              simp [npDiv, h, h2, npSq, npMul, nanToNumQ]
  | nan => simp [fitCell, npSub, npMul, npDiv, npSq, nanToNumQ]
  | inf => simp [fitCell, npSub, npMul, npDiv, npSq, nanToNumQ]
  | neginf => simp [fitCell, npSub, npMul, npDiv, npSq, nanToNumQ]


theorem sum_map_nonneg (f : α → ℚ) (l : List α) (h : ∀ a ∈ l, 0 ≤ f a) :
    0 ≤ (l.map f).sum := by
  induction l with
  | nil => simp
  | cons a t ih =>
      simp only [List.map_cons, List.sum_cons]
      exact add_nonneg (h a (List.mem_cons_self a t))
        (ih fun b hb => h b (List.mem_cons_of_mem _ hb))


/-- The fit-term sum of `cost_fn` is nonnegative, whatever the zipped
measured/variable/weight cells are. -/
theorem fit_sum_nonneg (l1 : List NpVal) (l2 : List (NpVal × NpVal)) :
    0 ≤ (List.zipWith (fun xmi p => fitCell p.1 xmi p.2) l1 l2).sum := by
  induction l1 generalizing l2 with
  | nil => simp
  | cons a t ih =>
      cases l2 with
      | nil => simp
      | cons b t2 =>
          simp only [List.zipWith_cons_cons, List.sum_cons]
          exact add_nonneg (fitCell_nonneg b.1 a b.2) (ih t2)


/-- The fit term vanishes identically when the variable vector equals the
measured vector, for any weight vector. -/
theorem fit_sum_self : ∀ (l s : List NpVal),
    (List.zipWith (fun xmi p => fitCell p.1 xmi p.2) l (List.zip l s)).sum = 0 := by
  intro l
  induction l with
  | nil => intro s; simp
  | cons a t ih =>
      intro s
      cases s with
      | nil => simp
      | cons b bs =>
          simp only [List.zip_cons_cons, List.zipWith_cons_cons, List.sum_cons,
            fitCell_self, zero_add]
          exact ih bs


/-- Claim C10: the per-record cost function is nonnegative for every input
vector, measured table, weight table and node-relationships list (every
contribution is a squared, guard-mapped term), so `0` is a global lower
bound for the minimization; and with no balance nodes the cost at the
measured point `x = xm` is exactly `0`. -/
theorem c10_cost_nonneg :
    (∀ (x : List NpVal) (xm sd : List (List NpVal)) (rels : List (List ℕ × List ℕ)),
        0 ≤ cost_fn x xm sd rels) ∧
    (∀ (xm sd : List (List NpVal)), cost_fn xm.flatten xm sd [] = 0) := by
  constructor
  · intro x xm sd rels
    simp only [cost_fn]
    apply add_nonneg
    · exact fit_sum_nonneg _ _
    · apply sum_map_nonneg
      intro io _
      apply sum_map_nonneg
      intro d _
      exact nanToNumQ_npSq_nonneg d
  · intro xm sd
    simp only [cost_fn, List.map_nil, List.sum_nil, add_zero]
    exact fit_sum_self _ _


/-- The `np.hstack` construction of `x_mass` inside `cost_fn` agrees, on any
table whose rows are all nonempty, with the spec's component-mass
conversion. -/
theorem x_mass_eq_component_mass_spec (rows : List (List NpVal))
    (h : ∀ r ∈ rows, r ≠ []) :
    List.zipWith (fun m rest => m :: rest.map (fun g => npDiv (npMul g m) (NpVal.fin 100)))
      (rows.map (fun r => r.headD NpVal.nan)) (rows.map List.tail)
    = component_mass_spec rows := by
  induction rows with
  | nil => rfl
  | cons r rs ih =>
      cases r with
      | nil => exact absurd rfl (h [] (List.mem_cons_self _ _))
      | cons m g =>
          simp only [List.map_cons, List.zipWith_cons_cons, List.headD_cons,
            List.tail_cons, component_mass_spec, List.cons.injEq, true_and]
          exact ih fun r hr => h r (List.mem_cons_of_mem _ hr)


/-- Claim C2: for every input vector `x`, the value returned by the
per-record cost function equals the fit-term sum plus, for each balance
node's `(inputs, outputs)` pair, the guard-mapped sum of elementwise squared
differences between the component-mass rows summed over the node's inputs
and over its outputs, where component masses come from reshaping `x` to one
row per stream and converting each grade column by
`component_mass = grade * mass_dry / 100`, leaving column 0 unchanged. -/
theorem c2_cost_decomposition :
    ∀ (x : List NpVal) (xm sd : List (List NpVal)) (rels : List (List ℕ × List ℕ)),
      cost_fn x xm sd rels =
        fit_term_spec x xm sd +
        (rels.map (fun io => balance_term_spec (xm.headD []).length
            (component_mass_spec (toRows (xm.headD []).length x)) io)).sum := by
  intro x xm sd rels
  simp only [cost_fn, fit_term_spec, balance_term_spec, fitCell]
  rw [x_mass_eq_component_mass_spec _ (toRows_mem_ne_nil _ _)]


/-- Claim C1 counterexample: at the concrete cell `xm = 1`, `sd = 1`,
`x = 0` the fit expression `((xm - x) / (x * sd))^2` evaluates to `inf`
(not finite), yet its contribution to the cost is `maxFloat ≈ 1.8e308`,
not `0`: `np.nan_to_num` maps `inf` to the largest float, so the claim
that every non-finite cell contributes exactly `0` is false. -/
theorem c1_counterexample :
    npSq (npDiv (npSub (NpVal.fin 1) (NpVal.fin 0)) (npMul (NpVal.fin 0) (NpVal.fin 1)))
      = NpVal.inf ∧
    cost_fn [NpVal.fin 0] [[NpVal.fin 1]] [[NpVal.fin 1]] [] = maxFloat ∧
    maxFloat ≠ 0 := by
  refine ⟨?_, ?_, by norm_num [maxFloat]⟩
  · simp [npSub, npMul, npDiv, npSq]
  · simp [cost_fn, fitCell, npSub, npMul, npDiv, npSq, nanToNumQ]


/-- Claim C1 amended: the fit term maps each cell through `np.nan_to_num`,
which sends `nan` to `0` but `inf` to `maxFloat` (the largest double), not
to `0`.  Hence a cell whose expression is `nan` — in particular a measured
value of exactly `0` compared at `x = 0`, as at the optimizer's starting
point — contributes exactly `0` and never propagates `NaN`/`Inf` into the
cost, while a cell whose expression diverges to `inf` (e.g. `x = 0` with
`xm ≠ 0`) contributes `maxFloat`. -/
theorem c1_amended_nan_guard :
    (∀ sd : NpVal, fitCell (NpVal.fin 0) (NpVal.fin 0) sd = 0) ∧
    (∀ x xm sd : NpVal,
        npSq (npDiv (npSub xm x) (npMul x sd)) = NpVal.nan → fitCell x xm sd = 0) ∧
    (∀ x xm sd : NpVal,
        npSq (npDiv (npSub xm x) (npMul x sd)) = NpVal.inf → fitCell x xm sd = maxFloat) ∧
    (∀ q s : ℚ, fitCell (NpVal.fin 0) (NpVal.fin q) (NpVal.fin s)
        = if q = 0 then 0 else maxFloat) := by
  refine ⟨fun sd => fitCell_self _ sd, ?_, ?_, ?_⟩
  · intro x xm sd h
    simp [fitCell, h, nanToNumQ]
  · intro x xm sd h
    simp [fitCell, h, nanToNumQ]
  · intro q s
    by_cases h : q = 0
    · simpa [h] using fitCell_self (NpVal.fin 0) (NpVal.fin s)
    · rcases lt_or_gt_of_ne h with hq | hq
      · simp [fitCell, npSub, npMul, npDiv, npSq, nanToNumQ, h, not_lt.mpr hq.le]
      · simp [fitCell, npSub, npMul, npDiv, npSq, nanToNumQ, h, hq]


/-- Witness for the amended C1 theorem: a `nan` cell (measured `0` at
`x = 0`) contributes `0`; an `inf` cell (measured `1` at `x = 0`)
contributes `maxFloat`. -/
theorem c1_amended_nan_guard_witness :
    fitCell (NpVal.fin 0) (NpVal.fin 0) (NpVal.fin 1) = 0 ∧
    fitCell (NpVal.fin 0) (NpVal.fin 1) (NpVal.fin 1) = maxFloat :=
  ⟨c1_amended_nan_guard.2.1 (NpVal.fin 0) (NpVal.fin 0) (NpVal.fin 1) (by
      simp [npSub, npMul, npDiv, npSq]),
   c1_amended_nan_guard.2.2.1 (NpVal.fin 0) (NpVal.fin 1) (NpVal.fin 1) (by
      simp [npSub, npMul, npDiv, npSq])⟩


theorem degreesList_getD (net : Network)
    (hnodes : net.nodes = List.range net.nodes.length)
    (u : ℕ) (hu : u ∈ net.nodes) :
    (degreesList net).getD u 0 = nxDegree net u := by
  have hl : u < net.nodes.length := by
    conv at hu => rw [hnodes]
    simpa using hu
  unfold degreesList
  rw [List.getD_eq_getElem?_getD, List.getElem?_map]
  conv_lhs => rw [hnodes]
  rw [List.getElem?_range hl]
  rfl


/-- Claim C8: `get_input_edges` returns exactly the streams whose origin
node has total degree 1, and `get_output_edges` exactly those whose
destination node has total degree 1 — given that the node labels are the
positions `0..n-1` (which `from_streams` guarantees via
`convert_node_labels_to_integers`) and every edge endpoint is a node. -/
theorem c8_input_output_edges (net : Network)
    (hnodes : net.nodes = List.range net.nodes.length)
    (hwf : ∀ e ∈ net.edges, e.1 ∈ net.nodes ∧ e.2.1 ∈ net.nodes) :
    get_input_edges net = net.edges.filter (fun e => decide (nxDegree net e.1 = 1)) ∧
    get_output_edges net = net.edges.filter (fun e => decide (nxDegree net e.2.1 = 1)) := by
  constructor
  · apply List.filter_congr
    intro e he
    rw [degreesList_getD net hnodes e.1 (hwf e he).1]
  · apply List.filter_congr
    intro e he
    rw [degreesList_getD net hnodes e.2.1 (hwf e he).2]


/-- Witness for C8 on the concrete flowsheet `exNet`. -/
theorem c8_input_output_edges_witness :
    get_input_edges exNet = [(0, 1, "feed")] ∧
    get_output_edges exNet = [(1, 2, "lump"), (1, 3, "fines")] := by
  refine ⟨?_, ?_⟩
  · rw [(c8_input_output_edges exNet (by decide) (by decide)).1]; decide
  · rw [(c8_input_output_edges exNet (by decide) (by decide)).2]; decide


theorem set_rows_cons (tbl : List (String × List ℚ)) (n : String) (ns : List String) (v : ℚ) :
    set_rows tbl (n :: ns) v =
      set_rows (tbl.map (fun row => if row.1 = n then (row.1, row.2.map (fun _ => v)) else row)) ns v :=
  rfl


/-- Closed form of the sequential row-overwrite loop: a row is rewritten to
the constant `v` exactly when its name occurs in `names`. -/
theorem set_rows_eq (names : List String) : ∀ (tbl : List (String × List ℚ)) (v : ℚ),
    set_rows tbl names v =
      tbl.map (fun row => if row.1 ∈ names then (row.1, row.2.map (fun _ => v)) else row) := by
  induction names with
  | nil =>
      intro tbl v
      simp [set_rows]
  | cons n ns ih =>
      intro tbl v
      rw [set_rows_cons, ih, List.map_map]
      apply List.map_congr_left
      intro row _
      by_cases h1 : row.1 = n
      · by_cases h2 : row.1 ∈ ns <;>
          simp [Function.comp, h1, h2, List.map_map]
      · by_cases h2 : row.1 ∈ ns <;>
          simp [Function.comp, h1, h2]


/-- `set_rows` applied to the all-ones base table yields, per row, the
constant `v` for named rows and `1` elsewhere. -/
theorem set_rows_base (names0 comps names : List String) (v : ℚ) :
    set_rows (names0.map (fun nm => (nm, comps.map (fun _ => (1:ℚ))))) names v =
      names0.map (fun nm => (nm, comps.map (fun _ => if nm ∈ names then v else 1))) := by
  rw [set_rows_eq, List.map_map]
  apply List.map_congr_left
  intro nm _
  by_cases h : nm ∈ names
  · simp [Function.comp, h, List.map_map]
  · simp [Function.comp, h]


theorem create_balance_config_none_eq (net : Network) (comps : List String) (locked : Bool) :
    create_balance_config net comps none locked =
      Except.ok ((get_edge_names net).map (fun nm => (nm, comps.map (fun _ => (1:ℚ))))) :=
  rfl


theorem create_balance_config_empty_eq (net : Network) (comps : List String) (locked : Bool) :
    create_balance_config net comps (some "") locked =
      Except.ok ((get_edge_names net).map (fun nm => (nm, comps.map (fun _ => (1:ℚ))))) :=
  rfl


theorem create_balance_config_input_eq (net : Network) (comps : List String) (locked : Bool) :
    create_balance_config net comps (some "input") locked =
      Except.ok ((get_edge_names net).map (fun nm =>
        (nm, comps.map (fun _ =>
          if nm ∈ (get_input_edges net).map (fun e => e.2.2)
          then (if locked then (1:ℚ)/1000 else 1/10) else 1)))) := by
  rw [show create_balance_config net comps (some "input") locked =
      Except.ok (set_rows
        ((get_edge_names net).map (fun nm => (nm, comps.map (fun _ => (1:ℚ)))))
        ((get_input_edges net).map (fun e => e.2.2))
        (if locked then 1/1000 else 1/10)) from rfl,
    set_rows_base]


theorem create_balance_config_output_eq (net : Network) (comps : List String) (locked : Bool) :
    create_balance_config net comps (some "output") locked =
      Except.ok ((get_edge_names net).map (fun nm =>
        (nm, comps.map (fun _ =>
          if nm ∈ (get_output_edges net).map (fun e => e.2.2)
          then (if locked then (1:ℚ)/1000 else 1/10) else 1)))) := by
  rw [show create_balance_config net comps (some "output") locked =
      Except.ok (set_rows
        ((get_edge_names net).map (fun nm => (nm, comps.map (fun _ => (1:ℚ)))))
        ((get_output_edges net).map (fun e => e.2.2))
        (if locked then 1/1000 else 1/10)) from rfl,
    set_rows_base]


/-- Claim C3: `create_balance_config` returns a table with one row per
stream name and one column per component in which every cell is `1.0` when
no best-measurements policy is given; under the trust-inputs
(resp. trust-outputs) policy exactly the rows of the input (resp. output)
streams are overwritten with `0.001` if locked else `0.1`, and every other
row stays `1.0`. -/
theorem c3_balance_config_table (net : Network) (comps : List String) (locked : Bool) :
    create_balance_config net comps none locked =
      Except.ok ((get_edge_names net).map (fun nm => (nm, comps.map (fun _ => (1:ℚ))))) ∧
    create_balance_config net comps (some "input") locked =
      Except.ok ((get_edge_names net).map (fun nm =>
        (nm, comps.map (fun _ =>
          if nm ∈ (get_input_edges net).map (fun e => e.2.2)
          then (if locked then (1:ℚ)/1000 else 1/10) else 1)))) ∧
    create_balance_config net comps (some "output") locked =
      Except.ok ((get_edge_names net).map (fun nm =>
        (nm, comps.map (fun _ =>
          if nm ∈ (get_output_edges net).map (fun e => e.2.2)
          then (if locked then (1:ℚ)/1000 else 1/10) else 1)))) :=
  ⟨create_balance_config_none_eq net comps locked,
   create_balance_config_input_eq net comps locked,
   create_balance_config_output_eq net comps locked⟩


/-- Claim C4 counterexample: the empty string is not a recognized policy
value, yet `create_balance_config` succeeds on it (Python's
`if best_measurements:` treats `""` as falsy), so the claim that every
unrecognized policy string fails with an error is false. -/
theorem c4_counterexample :
    "" ≠ "input" ∧ "" ≠ "output" ∧
    (create_balance_config exNet ["mass_dry", "Fe"] (some "") false).isOk = true := by
  refine ⟨by decide, by decide, rfl⟩


theorem create_balance_config_error_eq (net : Network) (comps : List String) (locked : Bool)
    (s : String) (h1 : s ≠ "") (h2 : s ≠ "input") (h3 : s ≠ "output") :
    create_balance_config net comps (some s) locked =
      Except.error "best_measurements argument must be input|output" := by
  simp only [create_balance_config]
  rw [if_neg h1, if_neg h2, if_neg h3]


/-- Claim C4 amended: `create_balance_config` fails fast — before any
optimization — for every non-empty policy string other than `input` and
`output`; it succeeds for the recognized values, and also for the empty
string, which Python truthiness treats like no policy at all. -/
theorem c4_amended_policy_validation (net : Network) (comps : List String) (locked : Bool) :
    (∀ s : String, s ≠ "" → s ≠ "input" → s ≠ "output" →
        create_balance_config net comps (some s) locked =
          Except.error "best_measurements argument must be input|output") ∧
    (create_balance_config net comps none locked).isOk = true ∧
    (create_balance_config net comps (some "input") locked).isOk = true ∧
    (create_balance_config net comps (some "output") locked).isOk = true ∧
    (create_balance_config net comps (some "") locked).isOk = true := by
  refine ⟨create_balance_config_error_eq net comps locked, rfl, ?_, ?_, rfl⟩
  · rw [create_balance_config_input_eq]; rfl
  · rw [create_balance_config_output_eq]; rfl


/-- Witness for the amended C4 theorem: the unrecognized policy `bogus`
is rejected on the concrete flowsheet. -/
theorem c4_amended_policy_validation_witness :
    create_balance_config exNet ["mass_dry", "Fe"] (some "bogus") false =
      Except.error "best_measurements argument must be input|output" :=
  (c4_amended_policy_validation exNet ["mass_dry", "Fe"] false).1 "bogus"
    (by decide) (by decide) (by decide)


/-- Claim C5 counterexample: an uncertainty table containing the weight `0`
is not rejected anywhere — `_create_cost_functions` builds its closures
without any weight validation (one closure per record, for any `sd`), and
the resulting cost function simply evaluates: at `xm = 1`, `sd = 0`,
`x = 2` the cell is `((1-2)/(2*0))^2 = inf`, guard-mapped to `maxFloat`.
No `InvalidWeight` failure exists before (or during) minimization. -/
theorem c5_counterexample :
    (create_cost_functions ["r1"] (fun _ => [[NpVal.fin 1]]) [[NpVal.fin 0]] []).length = 1 ∧
    cost_fn [NpVal.fin 2] [[NpVal.fin 1]] [[NpVal.fin 0]] [] = maxFloat := by
  refine ⟨rfl, ?_⟩
  norm_num [cost_fn, fitCell, npSub, npMul, npDiv, npSq, nanToNumQ]


theorem mem_map_const {α : Type} {v c : ℚ} {l : List α}
    (h : c ∈ l.map (fun _ => v)) : c = v := by
  obtain ⟨a, _, ha⟩ := List.mem_map.mp h
  exact ha.symm


/-- Every cell of a table of the shape produced by the config builder is
the per-row constant `f nm`. -/
theorem table_cell_mem (names0 comps : List String) (f : String → ℚ)
    (r : String × List ℚ)
    (hr : r ∈ names0.map (fun nm => (nm, comps.map (fun _ => f nm))))
    (c : ℚ) (hc : c ∈ r.2) : c = f r.1 := by
  obtain ⟨nm, _, rfl⟩ := List.mem_map.mp hr
  exact mem_map_const hc


/-- Claim C5 amended: no `InvalidWeight` validation exists.  The
cost-function builder accepts any `sd` table — including one containing a
zero weight — and returns one closure per record; inside `cost_fn` a zero
weight flows into a division by zero that the `nan_to_num` guard absorbs
(NaN to `0`, infinities to `±maxFloat`) instead of raising.  What does hold
is that every table `create_balance_config` itself produces has strictly
positive entries (`1.0`, `0.1` or `0.001`), so builder-made configurations
never contain a zero or negative weight. -/
theorem c5_amended_no_weight_validation :
    (∀ (records : List String) (xmOf : String → List (List NpVal))
        (sd : List (List NpVal)) (rels : List (List ℕ × List ℕ)),
        (create_cost_functions records xmOf sd rels).length = records.length) ∧
    (∀ (net : Network) (comps : List String) (bm : Option String) (locked : Bool)
        (t : List (String × List ℚ)),
        create_balance_config net comps bm locked = Except.ok t →
        ∀ r ∈ t, ∀ c ∈ r.2, 0 < c) := by
  constructor
  · intro records xmOf sd rels
    simp [create_cost_functions]
  · intro net comps bm locked t h r hr c hc
    have tpos : (0:ℚ) < if locked then 1/1000 else 1/10 := by
      split <;> norm_num
    cases bm with
    | none =>
        rw [create_balance_config_none_eq] at h
        simp only [Except.ok.injEq] at h
        subst h
        rw [table_cell_mem _ _ _ r hr c hc]
        norm_num
    | some s =>
        by_cases hs : s = ""
        · subst hs
          rw [create_balance_config_empty_eq] at h
          simp only [Except.ok.injEq] at h
          subst h
          rw [table_cell_mem _ _ _ r hr c hc]
          norm_num
        · by_cases hi : s = "input"
          · subst hi
            rw [create_balance_config_input_eq] at h
            simp only [Except.ok.injEq] at h
            subst h
            rw [table_cell_mem _ _ _ r hr c hc]
            split
            · exact tpos
            · norm_num
          · by_cases ho : s = "output"
            · subst ho
              rw [create_balance_config_output_eq] at h
              simp only [Except.ok.injEq] at h
              subst h
              rw [table_cell_mem _ _ _ r hr c hc]
              split
              · exact tpos
              · norm_num
            · rw [create_balance_config_error_eq net comps locked s hs hi ho] at h
              simp at h


/-- Witness for the amended C5 theorem: on the concrete flowsheet with the
locked trust-inputs policy, the builder's table exists and a sampled cell
is positive. -/
theorem c5_amended_no_weight_validation_witness :
    (create_cost_functions ["r1", "r2"] (fun _ => [[NpVal.fin 1]]) [[NpVal.fin 1]] []).length = 2 ∧
    (0:ℚ) < 1/1000 := by
  constructor
  · exact c5_amended_no_weight_validation.1 ["r1", "r2"] _ _ _
  · exact c5_amended_no_weight_validation.2 exNet ["mass_dry"] (some "input") true
      _ (create_balance_config_input_eq exNet ["mass_dry"] true)
      ("feed", [(1:ℚ)/1000])
      (List.mem_map.mpr ⟨"feed", by decide, by rfl⟩)
      ((1:ℚ)/1000) (List.mem_singleton_self _)


/-- Claim C6 counterexample: two minimizers that return the same `res.x`
but opposite `res.success` flags produce identical `optimise` outputs, so
the returned table cannot contain any not-converged marker for a record
whose minimization failed to converge — `optimise` reads only `res.x` and
discards the flag. -/
theorem c6_counterexample :
    optimise_model ["s1"] ["r1"] ["r1"] 1 (fun _ => ⟨[(5:ℚ)], false⟩) =
      optimise_model ["s1"] ["r1"] ["r1"] 1 (fun _ => ⟨[(5:ℚ)], true⟩) ∧
    ((fun _ => (⟨[(5:ℚ)], false⟩ : MinimizeResult)) "r1").success = false ∧
    ((fun _ => (⟨[(5:ℚ)], true⟩ : MinimizeResult)) "r1").success = true :=
  ⟨rfl, rfl, rfl⟩


/-- Claim C6 amended: `optimise` ignores the minimizer's convergence flag
entirely — the returned table is a function of the per-record result
vectors `res.x` alone, so non-convergent records are silently accepted
with their partial answer and no flag is surfaced; the batch always
completes and returns `res.x`-derived rows for every record. -/
theorem c6_amended_flag_ignored :
    ∀ (edges records procOrder : List String) (ncols : ℕ)
      (m1 m2 : String → MinimizeResult),
      (∀ k, (m1 k).x = (m2 k).x) →
      optimise_model edges records procOrder ncols m1 =
        optimise_model edges records procOrder ncols m2 := by
  intro edges records procOrder ncols m1 m2 h
  simp only [optimise_model]
  have hfun : (fun k => List.zipWith (fun s row => ((k, s), row)) edges (toRows ncols (m1 k).x)) =
      (fun k => List.zipWith (fun s row => ((k, s), row)) edges (toRows ncols (m2 k).x)) :=
    funext (fun k => by rw [h k])
  rw [hfun]


/-- Witness for the amended C6 theorem at a concrete record. -/
theorem c6_amended_flag_ignored_witness :
    optimise_model ["a"] ["r"] ["r"] 1 (fun _ => ⟨[(2:ℚ)], false⟩) =
      optimise_model ["a"] ["r"] ["r"] 1 (fun _ => ⟨[(2:ℚ)], true⟩) :=
  c6_amended_flag_ignored ["a"] ["r"] ["r"] 1 _ _ (fun _ => rfl)


/-- `m` full rows fit in a vector of length at least `m * n`. -/
theorem toRows_length_ge (n : ℕ) (hn : 0 < n) :
    ∀ (m : ℕ) (l : List ℚ), m * n ≤ l.length → m ≤ (toRows n l).length := by
  intro m
  induction m with
  | zero => intro l _; exact Nat.zero_le _
  | succ m ih =>
      intro l hl
      have hlpos : 0 < l.length := by
        have : 0 < (m + 1) * n := Nat.mul_pos (Nat.succ_pos m) hn
        omega
      cases l with
      | nil => simp at hlpos
      | cons a t =>
          rw [toRows_cons n hn.ne' a t]
          simp only [List.length_cons] at hl
          simp only [List.length_cons]
          have hmn : (m + 1) * n = m * n + n := by ring
          have hdrop : m * n ≤ ((a :: t).drop n).length := by
            simp only [List.length_drop, List.length_cons]
            omega
          have hih := ih _ hdrop
          omega


/-- The keys of one per-record chunk are `(k, s)` for the streams `s` in
edge order, provided the reshaped result has at least one row per edge. -/
theorem chunk_keys_map_fst (k : String) :
    ∀ (edges : List String) (rows : List (List ℚ)),
      edges.length ≤ rows.length →
      (List.zipWith (fun s row => ((k, s), row)) edges rows).map Prod.fst =
        edges.map (fun s => (k, s)) := by
  intro edges
  induction edges with
  | nil => intro rows _; simp
  | cons s es ih =>
      intro rows h
      cases rows with
      | nil => simp at h
      | cons r rs =>
          simp only [List.zipWith_cons_cons, List.map_cons, List.cons.injEq, true_and]
          exact ih rs (by simpa using h)


/-- Number of rows of one per-record chunk matching the label `(r0, s0)`:
none if the chunk's record `k` differs from `r0`, else the multiplicity of
`s0` among the edges. -/
theorem filter_chunk_length (k r0 s0 : String) :
    ∀ (edges : List String) (rows : List (List ℚ)),
      edges.length ≤ rows.length →
      ((List.zipWith (fun s row => ((k, s), row)) edges rows).filter
          (fun row => decide (row.1 = (r0, s0)))).length =
        if k = r0 then edges.count s0 else 0 := by
  intro edges
  induction edges with
  | nil => intro rows _; simp
  | cons e es ih =>
      intro rows h
      cases rows with
      | nil => simp at h
      | cons r rs =>
          have hrec := ih rs (by simpa using h)
          simp only [List.zipWith_cons_cons, List.filter_cons]
          by_cases hke : ((k, e) : String × String) = (r0, s0)
          · obtain ⟨hk, hs⟩ := Prod.ext_iff.mp hke
            subst hk
            subst hs
            rw [if_pos rfl] at hrec
            rw [if_pos (show decide (((k, e) : String × String) = (k, e)) = true by simp),
              if_pos rfl]
            simp [hrec, List.count_cons]
          · rw [if_neg (by simpa using hke), hrec]
            by_cases hk : k = r0
            · subst hk
              have hs : e ≠ s0 := fun he => hke (by rw [he])
              rw [if_pos rfl, if_pos rfl]
              simp [List.count_cons, Ne.symm hs]
            · rw [if_neg hk, if_neg hk]


/-- Summing the indicator of `r0` over a list counts its occurrences. -/
theorem sum_map_ite_count (r0 : String) (l : List String) :
    (l.map (fun k => if k = r0 then (1:ℕ) else 0)).sum = l.count r0 := by
  induction l with
  | nil => simp
  | cons a t ih =>
      simp only [List.map_cons, List.sum_cons, ih, List.count_cons, beq_iff_eq]
      by_cases h : a = r0 <;> simp [h, Nat.add_comm]


/-- The labels of the rows selected for one label are copies of that
label. -/
theorem map_fst_filter (l : List ((String × String) × List ℚ))
    (idx : String × String) :
    (l.filter (fun row => decide (row.1 = idx))).map Prod.fst =
      List.replicate (l.filter (fun row => decide (row.1 = idx))).length idx := by
  induction l with
  | nil => rfl
  | cons a t ih =>
      by_cases h : a.1 = idx
      · simp [List.filter_cons, h, ih, List.replicate_succ]
      · simp [List.filter_cons, h, ih]


/-- A bind whose pieces each contribute exactly their own label reproduces
the index. -/
theorem map_fst_bind_eq_self (index : List (String × String))
    (f : String × String → List ((String × String) × List ℚ))
    (h : ∀ idx ∈ index, (f idx).map Prod.fst = [idx]) :
    (index.bind f).map Prod.fst = index := by
  induction index with
  | nil => rfl
  | cons a t ih =>
      simp only [List.cons_bind, List.map_append]
      rw [h a (List.mem_cons_self a t), ih (fun idx hidx => h idx (List.mem_cons_of_mem _ hidx))]
      rfl


/-- Claim C7: the table returned by `optimise` has exactly the measured
table's `(record key, stream)` row order, independent of the order in
which the per-record minimizations are processed — for any processing
order that is a permutation of the (duplicate-free) record index, with
duplicate-free stream names and result vectors of the full
`streams × components` length. -/
theorem c7_order_preserved (edges records procOrder : List String) (ncols : ℕ)
    (minim : String → MinimizeResult)
    (hperm : procOrder.Perm records) (hrec : records.Nodup) (hedge : edges.Nodup)
    (hn : 0 < ncols)
    (hx : ∀ k ∈ procOrder, (minim k).x.length = edges.length * ncols) :
    (optimise_model edges records procOrder ncols minim).map Prod.fst =
      to_dataframe_index edges records := by
  simp only [optimise_model, loc_reindex]
  apply map_fst_bind_eq_self
  intro idx hidx
  obtain ⟨s0, hs0, r0, hr0, rfl⟩ : ∃ s0 ∈ edges, ∃ r0 ∈ records, (r0, s0) = idx := by
    simpa [to_dataframe_index, List.mem_bind, List.mem_map, eq_comm] using hidx
  rw [map_fst_filter]
  have h1 : ((procOrder.bind fun k =>
      List.zipWith (fun s row => ((k, s), row)) edges (toRows ncols (minim k).x)).filter
        (fun row => decide (row.1 = (r0, s0)))).length = 1 := by
    rw [List.filter_bind, List.length_bind]
    have hpt : ∀ k ∈ procOrder,
        ((List.zipWith (fun s row => ((k, s), row)) edges (toRows ncols (minim k).x)).filter
            (fun row => decide (row.1 = (r0, s0)))).length =
          if k = r0 then (1:ℕ) else 0 := by
      intro k hk
      rw [filter_chunk_length k r0 s0 edges _
        (toRows_length_ge ncols hn edges.length _ (by rw [hx k hk]))]
      by_cases h : k = r0
      · simp [h, List.count_eq_one_of_mem hedge hs0]
      · simp [h]
    simp only [Function.comp_def]
    rw [List.map_congr_left hpt, sum_map_ite_count, hperm.count_eq]
    exact List.count_eq_one_of_mem hrec hr0
  rw [h1]
  rfl


/-- Witness for C7: two records processed in reversed order still come out
in the measured table's edge-major order. -/
theorem c7_order_preserved_witness :
    (optimise_model ["f", "p"] ["r1", "r2"] ["r2", "r1"] 2
        (fun _ => ⟨[1, 2, 3, 4], true⟩)).map Prod.fst =
      to_dataframe_index ["f", "p"] ["r1", "r2"] :=
  c7_order_preserved ["f", "p"] ["r1", "r2"] ["r2", "r1"] 2 _
    (List.Perm.swap "r1" "r2" []) (by decide) (by decide) (by decide)
    (by intro k _; rfl)


/-- Claim C9: `optimise` produces its reconciled result as a freshly
constructed table and leaves every stream's measured data in the network
unchanged — the state that comes out of the run is exactly the state that
went in, for every starting state and every minimizer. -/
theorem c9_optimise_preserves_state :
    ∀ (s : MCBalanceState)
      (minimize : (List NpVal → ℚ) → List ℚ → MinimizeResult),
      (optimise_st s minimize).1 = s ∧
      (optimise_st s minimize).1.stream_data = s.stream_data := by
  intro s minimize
  exact ⟨rfl, rfl⟩


end MassComp
